import Mathlib

/-
Verification of the dynamic foreign-call dispatcher in
src/extensions/ffi/lib.rs (the deno_ffi extension).

The embedding below translates the Rust source into Lean:
JSON values (the subset allowed on the wire, numbers and null) become an
inductive type mirroring how serde_json stores numbers (as an unsigned
64-bit integer, a negative 64-bit integer, or a binary64 float); binary
floating-point values are modelled as exact rationals together with a
round-to-nearest-even operation at a given mantissa width, which models
the Rust numeric casts `u64 as f64`, `i64 as f64` and `f64 as f32`.
Rust panics (the `unimplemented!` in `From<String> for FFIType` and the
`expect` calls in `FFIArg::as_u64` / `as_i64` / `as_f64`) are modelled as
a failure channel distinct from the structured `Result::Err` channel, and
`std::process::exit` as a third outcome; event traces record, in source
order, which external interactions (permission checks, library open,
symbol lookup, type-name resolution, value extraction, the foreign call)
each operation performs.
-/

namespace DenoFfi

/-- Host-supplied dynamic value, mirroring the subset of
`deno_core::serde_json::Value` admitted by the wire contract
(JSON-number or JSON-null).  Numbers follow the three internal storage
classes of a serde_json number: a `u64` (non-negative integer), an
`i64` that is negative, or a binary64 float (modelled as an exact
rational). -/
inductive JsonValue
  | null
  | posInt (n : Nat)
  | negInt (z : Int)
  | float (q : ℚ)
  deriving DecidableEq

/-- Numeric content of a `JsonValue`, as an exact rational; `none` for
null.  Used to state numeric equality between round-tripped values. -/
def numVal : JsonValue → Option ℚ
  | .null => none
  | .posInt n => some (n : ℚ)
  | .negInt z => some (z : ℚ)
  | .float q => some q

/-- The closed enumeration of supported native scalar types, from
`enum FFIType` in the source. -/
inductive FFIType
  | Void
  | U8
  | I8
  | U16
  | I16
  | U32
  | I32
  | U64
  | I64
  | USize
  | ISize
  | F32
  | F64
  deriving DecidableEq

/-- The closed wire-level type-name vocabulary. -/
def vocab : List String :=
  ["void", "u8", "i8", "u16", "i16", "u32", "i32", "u64", "i64",
   "usize", "isize", "f32", "f64"]

/-- Translation of `impl From<String> for FFIType`.  The Rust `match`
on the string maps the thirteen recognized lowercase names to tags and
hits `unimplemented!()` on anything else; the `unimplemented!` macro
panics with the message "not implemented", which the embedding records
in the error channel (a panic, not a structured recoverable error). -/
def FFIType.fromString (s : String) : Except String FFIType :=
  if s = "void" then .ok .Void
  else if s = "u8" then .ok .U8
  else if s = "i8" then .ok .I8
  else if s = "u16" then .ok .U16
  else if s = "i16" then .ok .I16
  else if s = "u32" then .ok .U32
  else if s = "i32" then .ok .I32
  else if s = "u64" then .ok .U64
  else if s = "i64" then .ok .I64
  else if s = "usize" then .ok .USize
  else if s = "isize" then .ok .ISize
  else if s = "f32" then .ok .F32
  else if s = "f64" then .ok .F64
  else .error "not implemented"

/-- Native calling-convention type tokens, one per constructor of
`libffi::middle::Type` used by the source. -/
inductive NativeType
  | void
  | u8
  | i8
  | u16
  | i16
  | u32
  | i32
  | u64
  | i64
  | usize
  | isize
  | f32
  | f64
  deriving DecidableEq

/-- Translation of `impl From<FFIType> for libffi::middle::Type`. -/
def FFIType.toNativeType : FFIType → NativeType
  | .Void => .void
  | .U8 => .u8
  | .I8 => .i8
  | .U16 => .u16
  | .I16 => .i16
  | .U32 => .u32
  | .I32 => .i32
  | .U64 => .u64
  | .I64 => .i64
  | .USize => .usize
  | .ISize => .isize
  | .F32 => .f32
  | .F64 => .f64

/-- Floor of the base-2 logarithm of the absolute value of a nonzero
rational, computed from the numerator and denominator. -/
def qflog2 (q : ℚ) : ℤ :=
  let k : ℤ := (Nat.log 2 q.num.natAbs : ℤ) - (Nat.log 2 q.den : ℤ)
  if (2 : ℚ) ^ k ≤ |q| then k else k - 1

/-- Round a nonnegative rational to the nearest integer, ties to even. -/
def rne0 (s : ℚ) : ℤ :=
  let n0 : ℤ := ⌊s⌋
  let r : ℚ := s - (n0 : ℚ)
  if r < 1 / 2 then n0
  else if 1 / 2 < r then n0 + 1
  else if 2 ∣ n0 then n0 else n0 + 1

/-- Round-to-nearest-even at `p` bits of mantissa, on exact rationals.
This models the IEEE-754 conversions performed by the Rust casts
`u64 as f64` / `i64 as f64` (with `p = 53`) and `f64 as f32`
(with `p = 24`); exponent-range overflow and subnormal rounding are
outside the range the claims quantify over and are not modelled. -/
def rnE (p : ℕ) (q : ℚ) : ℚ :=
  if q = 0 then 0
  else
    let e : ℤ := qflog2 q - ((p : ℤ) - 1)
    let n : ℤ := rne0 (|q| * 2 ^ (-e))
    (if q < 0 then -(n : ℚ) else (n : ℚ)) * 2 ^ e

/-- A rational is exactly representable with a `p`-bit mantissa
(unbounded exponent): it equals `m * 2 ^ e` with `|m| < 2 ^ p`. -/
def repBits (p : ℕ) (q : ℚ) : Prop :=
  ∃ (m : ℤ) (e : ℤ), m.natAbs < 2 ^ p ∧ q = (m : ℚ) * 2 ^ e

/-- Two's-complement wrap-around of an integer to width `w`, modelling
the Rust `as i8` / `as i16` / `as i32` casts from `i64`. -/
def wrap (w : ℕ) (z : ℤ) : ℤ :=
  (z + 2 ^ (w - 1)) % 2 ^ w - 2 ^ (w - 1)

/-- Translation of `serde_json::Value::as_u64`: only a number stored as
a `u64` yields a value. -/
def asU64 : JsonValue → Option Nat
  | .posInt n => some n
  | _ => none

/-- Translation of `serde_json::Value::as_i64`: a `u64`-stored number
converts when it fits in `i64`; a negative-integer-stored number
converts directly; floats and null do not. -/
def asI64 : JsonValue → Option Int
  | .posInt n => if n < 2 ^ 63 then some (n : ℤ) else none
  | .negInt z => some z
  | _ => none

/-- Translation of `serde_json::Value::as_f64`: every stored number
converts (integers via an `as f64` rounding cast); null does not. -/
def asF64 : JsonValue → Option ℚ
  | .posInt n => some (rnE 53 (n : ℚ))
  | .negInt z => some (rnE 53 (z : ℚ))
  | .float q => some q
  | .null => none

/-- A native argument cell: the typed value placed behind the pointer a
`libffi::middle::Arg` carries.  One constructor per `FFIType` branch of
`impl From<FFIArg> for libffi::middle::Arg`. -/
inductive NativeValue
  | unit
  | u8 (n : Nat)
  | i8 (z : Int)
  | u16 (n : Nat)
  | i16 (z : Int)
  | u32 (n : Nat)
  | i32 (z : Int)
  | u64 (n : Nat)
  | i64 (z : Int)
  | usize (n : Nat)
  | isize (z : Int)
  | f32 (q : ℚ)
  | f64 (q : ℚ)
  deriving DecidableEq

/-- Panic message of `FFIArg::as_u64`. -/
def msgUnsigned : String := "Expected ffi arg value to be an unsigned integer"

/-- Panic message of `FFIArg::as_i64`. -/
def msgSigned : String := "Expected ffi arg value to be a signed integer"

/-- Panic message of `FFIArg::as_f64`. -/
def msgFloat : String := "Expected ffi arg value to be a float"

/-- Translation of the value-extraction half of
`impl From<FFIArg> for libffi::middle::Arg`: dispatch on the resolved
type tag, read the value through the accessor for that tag's
representation class (`as_u64` / `as_i64` / `as_f64`, whose `expect`
panics are the error channel here), and apply the Rust narrowing cast
for the declared width.  `usize` and `isize` are 64-bit (the casts
`u64 as usize` and `i64 as isize` are the identity on a 64-bit
platform). -/
def extractArg : FFIType → JsonValue → Except String NativeValue
  | .Void, _ => .ok .unit
  | .U8, v =>
    match asU64 v with
    | some n => .ok (.u8 (n % 2 ^ 8))
    | none => .error msgUnsigned
  | .I8, v =>
    match asI64 v with
    | some z => .ok (.i8 (wrap 8 z))
    | none => .error msgSigned
  | .U16, v =>
    match asU64 v with
    | some n => .ok (.u16 (n % 2 ^ 16))
    | none => .error msgUnsigned
  | .I16, v =>
    match asI64 v with
    | some z => .ok (.i16 (wrap 16 z))
    | none => .error msgSigned
  | .U32, v =>
    match asU64 v with
    | some n => .ok (.u32 (n % 2 ^ 32))
    | none => .error msgUnsigned
  | .I32, v =>
    match asI64 v with
    | some z => .ok (.i32 (wrap 32 z))
    | none => .error msgSigned
  | .U64, v =>
    match asU64 v with
    | some n => .ok (.u64 n)
    | none => .error msgUnsigned
  | .I64, v =>
    match asI64 v with
    | some z => .ok (.i64 z)
    | none => .error msgSigned
  | .USize, v =>
    match asU64 v with
    | some n => .ok (.usize n)
    | none => .error msgUnsigned
  | .ISize, v =>
    match asI64 v with
    | some z => .ok (.isize z)
    | none => .error msgSigned
  | .F32, v =>
    match asF64 v with
    | some q => .ok (.f32 (rnE 24 q))
    | none => .error msgFloat
  | .F64, v =>
    match asF64 v with
    | some q => .ok (.f64 q)
    | none => .error msgFloat

/-- Translation of the `json!(...)` conversion applied to each natively
typed return value in `op_dlcall`: unsigned integers become `u64`-stored
numbers, signed integers become `u64`-stored when nonnegative and
negative-integer-stored otherwise (serde_json stores an `i64` that way),
floats become float-stored numbers (`f32` widened exactly to `f64`),
and `()` becomes JSON null.  NaN and infinities (which serde_json maps
to null) cannot arise from the finite rational model. -/
def jsonOfNative : NativeValue → JsonValue
  | .unit => .null
  | .u8 n => .posInt n
  | .u16 n => .posInt n
  | .u32 n => .posInt n
  | .u64 n => .posInt n
  | .usize n => .posInt n
  | .i8 z => if 0 ≤ z then .posInt z.toNat else .negInt z
  | .i16 z => if 0 ≤ z then .posInt z.toNat else .negInt z
  | .i32 z => if 0 ≤ z then .posInt z.toNat else .negInt z
  | .i64 z => if 0 ≤ z then .posInt z.toNat else .negInt z
  | .isize z => if 0 ≤ z then .posInt z.toNat else .negInt z
  | .f32 q => .float q
  | .f64 q => .float q

/-- Translation of `struct FFIArg`: a declared type name together with
the dynamic value (field names `arg_type` and `value` in the source). -/
structure FFIArg where
  argType : String
  value : JsonValue
  deriving DecidableEq

/-- Translation of `struct DlcallArgs`. -/
structure DlcallArgs where
  sym : String
  args : List FFIArg
  returnType : String
  deriving DecidableEq

/-- External interactions an operation performs, recorded in source
order so that sequencing properties (what happens before what, and what
never happens on an error path) can be stated. -/
inductive Event
  | permCheck
  | permCheckRead (path : String)
  | libOpen (path : String)
  | symbolLookup (name : String)
  | typeResolve (name : String)
  | valueExtract
  | foreignCall (name : String)
  deriving DecidableEq

/-- Structured errors carried through the `Result` (`AnyError`) channel
of the two ops: these are returned to the host call site as recoverable
failures. -/
inductive FfiError
  | permissionDenied
  | badResourceId
  | symbolNotFound (name : String)
  | libraryLoadError (msg : String)
  deriving DecidableEq

/-- Outcome of an op: a returned value, a structured recoverable error
(the `Result::Err` channel), a Rust panic (the `unimplemented!` and
`expect` failure channel, which does not return a structured error to
the call site), or a whole-process exit (from `check_unstable`). -/
inductive FfiOutcome (α : Type)
  | ok (a : α)
  | err (e : FfiError)
  | panicked (msg : String)
  | processExit (code : Nat) (msg : String)
  deriving DecidableEq

/-- Whether the outcome is a structured recoverable error returned to
the host call site (true exactly for the `Result::Err` channel). -/
def FfiOutcome.returnedErr : FfiOutcome α → Bool
  | .err _ => true
  | _ => false

/-- Translation of the `types` iterator of `op_dlcall` as forced by
`Cif::new`: for each argument spec, in order, resolve its declared type
name to an `FFIType` and map it to the native calling-convention type.
Also records the type-resolution events in order.  A name outside the
vocabulary panics (stopping the sequence). -/
def resolveTypes : List FFIArg → Except String (List NativeType) × List Event
  | [] => (.ok [], [])
  | a :: rest =>
    match FFIType.fromString a.argType with
    | .error m => (.error m, [.typeResolve a.argType])
    | .ok t =>
      match resolveTypes rest with
      | (.error m, ev) => (.error m, .typeResolve a.argType :: ev)
      | (.ok ts, ev) => (.ok (t.toNativeType :: ts), .typeResolve a.argType :: ev)

/-- Translation of the argument-cell construction of `op_dlcall`
(`args.into_iter().map(|arg| arg.into()).collect()`): for each spec, in
order, `From<FFIArg> for Arg` re-resolves the declared type name and
then extracts the value for that tag, producing one native cell per
spec.  Records resolution and extraction events in order. -/
def marshalArgs : List FFIArg → Except String (List NativeValue) × List Event
  | [] => (.ok [], [])
  | a :: rest =>
    match FFIType.fromString a.argType with
    | .error m => (.error m, [.typeResolve a.argType])
    | .ok t =>
      match extractArg t a.value with
      | .error m => (.error m, [.typeResolve a.argType, .valueExtract])
      | .ok cell =>
        match marshalArgs rest with
        | (.error m, ev) => (.error m, .typeResolve a.argType :: .valueExtract :: ev)
        | (.ok cells, ev) =>
          (.ok (cell :: cells), .typeResolve a.argType :: .valueExtract :: ev)

/-- A native function behind a resolved symbol, modelled as a function
from the marshalled argument cells to a natively typed return value. -/
def NativeFun : Type := List NativeValue → NativeValue

/-- The call-interface descriptor built by `Cif::new` from the ordered
native argument types and the native return type. -/
structure Cif where
  argTypes : List NativeType
  retType : NativeType

/-- The foreign call `cif.call(fn_code_ptr, &args)`: the machine-level
invocation through the descriptor, modelled as applying the native
function to the argument cells (faithful under the ABI obligation that
the descriptor matches the function's true signature). -/
def Cif.call (_cif : Cif) (f : NativeFun) (cells : List NativeValue) : NativeValue :=
  f cells

/-- A loaded dynamic library (`dlopen::raw::Library`, wrapped by
`DylibResource`): its export table maps symbol names to native
functions. -/
structure Library where
  symbols : List (String × NativeFun)

/-- Translation of `library.symbol(name)`: name lookup in the export
table; absence is the loader's symbol-not-found error. -/
def Library.symbol (l : Library) (s : String) : Option NativeFun :=
  (l.symbols.find? (fun p => p.fst == s)).map (fun p => p.snd)

/-- The generic `deno_core` resource table holding open library
handles, consumed through `add` and `get`. -/
structure ResourceTable where
  next : Nat
  entries : List (Nat × Library)

/-- Lookup of a resource id (`resource_table.get`). -/
def ResourceTable.get (t : ResourceTable) (rid : Nat) : Option Library :=
  (t.entries.find? (fun p => p.fst == rid)).map (fun p => p.snd)

/-- Insertion of a new resource (`resource_table.add`), returning the
fresh id and the updated table. -/
def ResourceTable.add (t : ResourceTable) (lib : Library) : Nat × ResourceTable :=
  (t.next, ⟨t.next + 1, (t.next, lib) :: t.entries⟩)

/-- The `FfiPermissions` collaborator: `check` models `check()` and
`checkRead` models `check_read(path)`, `true` meaning `Ok(())`. -/
structure FfiPermissions where
  check : Bool
  checkRead : String → Bool

/-- Diagnostic printed by `check_unstable` before exiting (the source
formats the api name inside single quotes; the quotes are elided
here). -/
def unstableMsg (api : String) : String :=
  "Unstable API " ++ api ++ ". The --unstable flag must be provided."

/-- Translation of `op_dlopen`: feature gate (process exit 70 when the
unstable flag is off), permission checks, library load through the
platform loader (a parameter, since `dlopen` is external), and
insertion into the resource table. -/
def op_dlopen (unstable : Bool) (perms : FfiPermissions)
    (loader : String → Except String Library)
    (table : ResourceTable) (path : String) :
    FfiOutcome Nat × ResourceTable × List Event :=
  if unstable then
    if perms.check then
      if perms.checkRead path then
        match loader path with
        | .error m =>
          (.err (.libraryLoadError m), table,
           [.permCheck, .permCheckRead path, .libOpen path])
        | .ok lib =>
          let r := table.add lib
          (.ok r.fst, r.snd, [.permCheck, .permCheckRead path, .libOpen path])
      else (.err .permissionDenied, table, [.permCheck, .permCheckRead path])
    else (.err .permissionDenied, table, [.permCheck])
  else (.processExit 70 (unstableMsg "Deno.dlopen"), table, [])

/-- Translation of the return-value dispatch of `op_dlcall`: the
thirteen `cif.call::<T>` branches each read the return slot at the
declared type and pass it to `json!`; the `void` branch calls at `()`
and `json!(())` is JSON null. -/
def invokeRet : FFIType → NativeValue → JsonValue
  | .Void, _ => .null
  | _, v => jsonOfNative v

/-- Translation of `op_dlcall`, in source order: feature gate,
permission check, resource-table lookup (`bad_resource_id` when
absent), symbol resolution (the loader's error when absent), eager
resolution of the declared return type name, forcing of the lazy
argument-type iterator by `Cif::new`, collection of the argument cells,
then the foreign call and the `json!` conversion of its result. -/
def op_dlcall (unstable : Bool) (perms : FfiPermissions)
    (table : ResourceTable) (rid : Nat) (a : DlcallArgs) :
    FfiOutcome JsonValue × List Event :=
  if unstable then
    if perms.check then
      match table.get rid with
      | none => (.err .badResourceId, [.permCheck])
      | some lib =>
        match lib.symbol a.sym with
        | none => (.err (.symbolNotFound a.sym), [.permCheck, .symbolLookup a.sym])
        | some f =>
          match FFIType.fromString a.returnType with
          | .error m =>
            (.panicked m,
             [.permCheck, .symbolLookup a.sym, .typeResolve a.returnType])
          | .ok rt =>
            match resolveTypes a.args with
            | (.error m, ev) =>
              (.panicked m,
               [.permCheck, .symbolLookup a.sym, .typeResolve a.returnType] ++ ev)
            | (.ok ts, ev) =>
              let cif : Cif := ⟨ts, rt.toNativeType⟩
              match marshalArgs a.args with
              | (.error m, ev2) =>
                (.panicked m,
                 [.permCheck, .symbolLookup a.sym, .typeResolve a.returnType]
                   ++ ev ++ ev2)
              | (.ok cells, ev2) =>
                (.ok (invokeRet rt (cif.call f cells)),
                 [.permCheck, .symbolLookup a.sym, .typeResolve a.returnType]
                   ++ ev ++ ev2 ++ [.foreignCall a.sym])
    else (.err .permissionDenied, [.permCheck])
  else (.processExit 70 (unstableMsg "Deno.dlcall"), [])

theorem natAbs_cast_q (n : ℤ) : ((n.natAbs : ℚ)) = |(n : ℚ)| := by
  rw [Int.cast_natAbs, Int.cast_abs]

theorem qflog2_le (q : ℚ) (hq : q ≠ 0) : (2 : ℚ) ^ qflog2 q ≤ |q| := by
  have hnum : q.num ≠ 0 := Rat.num_ne_zero.mpr hq
  have ha0 : q.num.natAbs ≠ 0 := Int.natAbs_ne_zero.mpr hnum
  have hb0 : 0 < q.den := q.pos
  have hbq : (0 : ℚ) < (q.den : ℚ) := by exact_mod_cast hb0
  have habs : |q| = (q.num.natAbs : ℚ) / (q.den : ℚ) := by
    conv_lhs => rw [← Rat.num_div_den q]
    rw [abs_div, natAbs_cast_q, abs_of_pos hbq]
  unfold qflog2
  by_cases hc :
      (2 : ℚ) ^ ((Nat.log 2 q.num.natAbs : ℤ) - (Nat.log 2 q.den : ℤ)) ≤ |q|
  · rw [if_pos hc]
    exact hc
  · rw [if_neg hc]
    have h1 : ((2 : ℚ)) ^ (Nat.log 2 q.num.natAbs : ℤ) ≤ (q.num.natAbs : ℚ) := by
      rw [zpow_natCast]
      exact_mod_cast Nat.pow_log_le_self 2 ha0
    have h2 : (q.den : ℚ) < ((2 : ℚ)) ^ ((Nat.log 2 q.den : ℤ) + 1) := by
      rw [show (Nat.log 2 q.den : ℤ) + 1 = ((Nat.log 2 q.den + 1 : ℕ) : ℤ) by
        push_cast
        ring]
      rw [zpow_natCast]
      exact_mod_cast Nat.lt_pow_succ_log_self (b := 2) (by norm_num) q.den
    rw [habs, le_div_iff₀ hbq]
    calc (2 : ℚ) ^ ((Nat.log 2 q.num.natAbs : ℤ) - (Nat.log 2 q.den : ℤ) - 1)
          * (q.den : ℚ)
        ≤ (2 : ℚ) ^ ((Nat.log 2 q.num.natAbs : ℤ) - (Nat.log 2 q.den : ℤ) - 1)
          * ((2 : ℚ)) ^ ((Nat.log 2 q.den : ℤ) + 1) :=
          mul_le_mul_of_nonneg_left h2.le (le_of_lt (zpow_pos two_pos _))
      _ = (2 : ℚ) ^ (Nat.log 2 q.num.natAbs : ℤ) := by
          rw [← zpow_add₀ (two_ne_zero : (2 : ℚ) ≠ 0)]
          congr 1
          ring
      _ ≤ (q.num.natAbs : ℚ) := h1

theorem rne0_natCast (n : ℕ) : rne0 ((n : ℕ) : ℚ) = (n : ℤ) := by
  unfold rne0
  have h1 : ⌊((n : ℕ) : ℚ)⌋ = (n : ℤ) := by
    exact_mod_cast Int.floor_intCast (α := ℚ) (n : ℤ)
  rw [h1, if_pos (by push_cast; norm_num)]

theorem repBits_mono {p p2 : ℕ} (h : p ≤ p2) {q : ℚ} :
    repBits p q → repBits p2 q := by
  rintro ⟨m, e, hm, rfl⟩
  exact ⟨m, e, lt_of_lt_of_le hm (Nat.pow_le_pow_right (by norm_num) h), rfl⟩

theorem rnE_eq_self {p : ℕ} {q : ℚ} (h : repBits p q) : rnE p q = q := by
  by_cases hq : q = 0
  · subst hq
    simp [rnE]
  obtain ⟨m, e, hm, hqe⟩ := h
  have hm0 : m ≠ 0 := by
    rintro rfl
    exact hq (by rw [hqe, Int.cast_zero, zero_mul])
  have h2e : (0 : ℚ) < 2 ^ e := zpow_pos two_pos e
  have habs : |q| = (m.natAbs : ℚ) * 2 ^ e := by
    rw [hqe, abs_mul, abs_of_pos h2e, natAbs_cast_q]
  have hmlt : (m.natAbs : ℚ) < 2 ^ (p : ℤ) := by
    rw [zpow_natCast]
    exact_mod_cast hm
  have hflt : qflog2 q < (p : ℤ) + e := by
    have h1 := qflog2_le q hq
    have h2 : |q| < 2 ^ ((p : ℤ) + e) := by
      rw [habs, zpow_add₀ (two_ne_zero : (2 : ℚ) ≠ 0)]
      exact mul_lt_mul_of_pos_right hmlt h2e
    exact (zpow_lt_zpow_iff_right₀ one_lt_two).mp (lt_of_le_of_lt h1 h2)
  unfold rnE
  rw [if_neg hq]
  dsimp only
  set e0 : ℤ := qflog2 q - ((p : ℤ) - 1) with he0
  have he0e : e0 ≤ e := by omega
  set d : ℕ := (e - e0).toNat with hd
  have hde : (2 : ℚ) ^ e * 2 ^ (-e0) = 2 ^ (d : ℤ) := by
    rw [← zpow_add₀ (two_ne_zero : (2 : ℚ) ≠ 0)]
    congr 1
    omega
  have hs : |q| * 2 ^ (-e0) = ((m.natAbs * 2 ^ d : ℕ) : ℚ) := by
    rw [habs, mul_assoc, hde]
    push_cast
    rw [zpow_natCast]
  have hrne : rne0 (|q| * 2 ^ (-e0)) = ((m.natAbs * 2 ^ d : ℕ) : ℤ) := by
    rw [hs, rne0_natCast]
  rw [hrne]
  have hcast : (((m.natAbs * 2 ^ d : ℕ) : ℤ) : ℚ) = |q| * 2 ^ (-e0) := by
    rw [hs]
    push_cast
    rw [natAbs_cast_q]
  have hmul : (|q| * 2 ^ (-e0)) * 2 ^ e0 = |q| := by
    rw [mul_assoc, ← zpow_add₀ (two_ne_zero : (2 : ℚ) ≠ 0)]
    simp
  by_cases hq0 : q < 0
  · rw [if_pos hq0, hcast, neg_mul, hmul, abs_of_neg hq0, neg_neg]
  · rw [if_neg hq0, hcast, hmul, abs_of_nonneg (le_of_not_lt hq0)]

theorem wrap_eq_self {w : ℕ} (hw : 1 ≤ w) {z : ℤ}
    (h1 : -(2 ^ (w - 1)) ≤ z) (h2 : z < 2 ^ (w - 1)) : wrap w z = z := by
  unfold wrap
  have hw2 : (2 : ℤ) ^ w = 2 ^ (w - 1) * 2 := by
    rw [← pow_succ]
    congr 1
    omega
  have h3 : (z + 2 ^ (w - 1)) % 2 ^ w = z + 2 ^ (w - 1) :=
    Int.emod_eq_of_lt (by omega) (by omega)
  rw [h3]
  omega

theorem fromString_of_not_mem {s : String} (h : s ∉ vocab) :
    FFIType.fromString s = .error "not implemented" := by
  simp only [vocab, List.mem_cons, List.not_mem_nil, or_false, not_or] at h
  obtain ⟨h1, h2, h3, h4, h5, h6, h7, h8, h9, h10, h11, h12, h13⟩ := h
  simp [FFIType.fromString, h1, h2, h3, h4, h5, h6, h7, h8, h9, h10, h11, h12, h13]

theorem resolveTypes_ok {specs : List FFIArg} {ts : List NativeType}
    (h : (resolveTypes specs).fst = .ok ts) :
    ts.length = specs.length ∧
    ∀ i, i < specs.length → ∃ a t, specs[i]? = some a ∧
      FFIType.fromString a.argType = .ok t ∧ ts[i]? = some t.toNativeType := by
  induction specs generalizing ts with
  | nil =>
    simp only [resolveTypes] at h
    cases h
    exact ⟨rfl, fun i hi => absurd hi (by simp)⟩
  | cons a rest ih =>
    rw [resolveTypes] at h
    cases hf : FFIType.fromString a.argType with
    | error m => rw [hf] at h; simp at h
    | ok t =>
      rw [hf] at h
      rcases hr : resolveTypes rest with ⟨res, ev⟩
      rw [hr] at h
      cases res with
      | error m => simp at h
      | ok ts2 =>
        simp only at h
        cases h
        obtain ⟨hlen, hidx⟩ := ih (by rw [hr])
        refine ⟨by simp [hlen], ?_⟩
        intro i hi
        cases i with
        | zero => exact ⟨a, t, by simp, hf, by simp⟩
        | succ j =>
          obtain ⟨a2, t2, ha2, ht2, hts2⟩ := hidx j (by simpa using hi)
          exact ⟨a2, t2, by simpa using ha2, ht2, by simpa using hts2⟩

theorem marshalArgs_ok {specs : List FFIArg} {cells : List NativeValue}
    (h : (marshalArgs specs).fst = .ok cells) :
    cells.length = specs.length ∧
    ∀ i, i < specs.length → ∃ a t cell, specs[i]? = some a ∧
      FFIType.fromString a.argType = .ok t ∧
      extractArg t a.value = .ok cell ∧ cells[i]? = some cell := by
  induction specs generalizing cells with
  | nil =>
    simp only [marshalArgs] at h
    cases h
    exact ⟨rfl, fun i hi => absurd hi (by simp)⟩
  | cons a rest ih =>
    rw [marshalArgs] at h
    cases hf : FFIType.fromString a.argType with
    | error m => rw [hf] at h; simp at h
    | ok t =>
      rw [hf] at h
      dsimp only at h
      cases he : extractArg t a.value with
      | error m => rw [he] at h; simp at h
      | ok cell =>
        rw [he] at h
        rcases hr : marshalArgs rest with ⟨res, ev⟩
        rw [hr] at h
        cases res with
        | error m => simp at h
        | ok cs2 =>
          simp only at h
          cases h
          obtain ⟨hlen, hidx⟩ := ih (by rw [hr])
          refine ⟨by simp [hlen], ?_⟩
          intro i hi
          cases i with
          | zero => exact ⟨a, t, cell, by simp, hf, he, by simp⟩
          | succ j =>
            obtain ⟨a2, t2, c2, ha2, ht2, he2, hc2⟩ := hidx j (by simpa using hi)
            exact ⟨a2, t2, c2, by simpa using ha2, ht2, he2, by simpa using hc2⟩

theorem resolveTypes_events {specs : List FFIArg} {ev : Event}
    (h : ev ∈ (resolveTypes specs).snd) : ∃ s, ev = .typeResolve s := by
  induction specs with
  | nil => simp [resolveTypes] at h
  | cons a rest ih =>
    rw [resolveTypes] at h
    cases hf : FFIType.fromString a.argType with
    | error m =>
      rw [hf] at h
      simp only [List.mem_cons, List.not_mem_nil, or_false] at h
      exact ⟨a.argType, h⟩
    | ok t =>
      rw [hf] at h
      rcases hr : resolveTypes rest with ⟨res, ev2⟩
      rw [hr] at h
      cases res with
      | error m =>
        simp only [List.mem_cons] at h
        rcases h with h | h
        · exact ⟨a.argType, h⟩
        · exact ih (by rw [hr]; exact h)
      | ok ts2 =>
        simp only [List.mem_cons] at h
        rcases h with h | h
        · exact ⟨a.argType, h⟩
        · exact ih (by rw [hr]; exact h)

theorem marshalArgs_events {specs : List FFIArg} {ev : Event}
    (h : ev ∈ (marshalArgs specs).snd) :
    (∃ s, ev = .typeResolve s) ∨ ev = .valueExtract := by
  induction specs with
  | nil => simp [marshalArgs] at h
  | cons a rest ih =>
    rw [marshalArgs] at h
    cases hf : FFIType.fromString a.argType with
    | error m =>
      rw [hf] at h
      simp only [List.mem_cons, List.not_mem_nil, or_false] at h
      exact .inl ⟨a.argType, h⟩
    | ok t =>
      rw [hf] at h
      dsimp only at h
      cases he : extractArg t a.value with
      | error m =>
        rw [he] at h
        simp only [List.mem_cons, List.not_mem_nil, or_false] at h
        rcases h with h | h
        · exact .inl ⟨a.argType, h⟩
        · exact .inr h
      | ok cell =>
        rw [he] at h
        rcases hr : marshalArgs rest with ⟨res, ev2⟩
        rw [hr] at h
        cases res with
        | error m =>
          simp only [List.mem_cons] at h
          rcases h with h | h | h
          · exact .inl ⟨a.argType, h⟩
          · exact .inr h
          · exact ih (by rw [hr]; exact h)
        | ok cs2 =>
          simp only [List.mem_cons] at h
          rcases h with h | h | h
          · exact .inl ⟨a.argType, h⟩
          · exact .inr h
          · exact ih (by rw [hr]; exact h)

theorem resolveTypes_error_of_bad {specs : List FFIArg} {i : ℕ} {a : FFIArg}
    {m0 : String} (ha : specs[i]? = some a)
    (hbad : FFIType.fromString a.argType = .error m0) :
    ∃ m, (resolveTypes specs).fst = .error m := by
  induction specs generalizing i with
  | nil => simp at ha
  | cons b rest ih =>
    cases i with
    | zero =>
      simp only [List.getElem?_cons_zero, Option.some.injEq] at ha
      subst ha
      rw [resolveTypes, hbad]
      exact ⟨m0, rfl⟩
    | succ j =>
      simp only [List.getElem?_cons_succ] at ha
      rw [resolveTypes]
      cases hf : FFIType.fromString b.argType with
      | error m => exact ⟨m, rfl⟩
      | ok t =>
        obtain ⟨m, hm⟩ := ih ha
        rcases hr : resolveTypes rest with ⟨res, ev⟩
        rw [hr] at hm
        simp only at hm
        cases res with
        | error m2 => cases hm; exact ⟨m, by simp [hr]⟩
        | ok ts2 => simp at hm

/-- A dynamic value is within a `TypeTag`'s representable range: its
serde_json storage class matches the accessor the tag dispatches to,
and the numeric value fits the declared native type exactly (for the
float tags, exact binary32/binary64 representability; integer inputs
additionally respect the `u64`/`i64` storage invariants of serde_json
numbers). -/
def representableIn : FFIType → JsonValue → Prop
  | .Void, _ => False
  | .U8, v => ∃ n, v = .posInt n ∧ n < 2 ^ 8
  | .U16, v => ∃ n, v = .posInt n ∧ n < 2 ^ 16
  | .U32, v => ∃ n, v = .posInt n ∧ n < 2 ^ 32
  | .U64, v => ∃ n, v = .posInt n ∧ n < 2 ^ 64
  | .USize, v => ∃ n, v = .posInt n ∧ n < 2 ^ 64
  | .I8, v => (∃ n, v = .posInt n ∧ n < 2 ^ 7) ∨
      (∃ z, v = .negInt z ∧ -(2 ^ 7) ≤ z ∧ z < 2 ^ 7)
  | .I16, v => (∃ n, v = .posInt n ∧ n < 2 ^ 15) ∨
      (∃ z, v = .negInt z ∧ -(2 ^ 15) ≤ z ∧ z < 2 ^ 15)
  | .I32, v => (∃ n, v = .posInt n ∧ n < 2 ^ 31) ∨
      (∃ z, v = .negInt z ∧ -(2 ^ 31) ≤ z ∧ z < 2 ^ 31)
  | .I64, v => (∃ n, v = .posInt n ∧ n < 2 ^ 63) ∨
      (∃ z, v = .negInt z ∧ -(2 ^ 63) ≤ z ∧ z < 0)
  | .ISize, v => (∃ n, v = .posInt n ∧ n < 2 ^ 63) ∨
      (∃ z, v = .negInt z ∧ -(2 ^ 63) ≤ z ∧ z < 0)
  | .F32, v => (∃ n, v = .posInt n ∧ n < 2 ^ 64 ∧ repBits 24 ((n : ℕ) : ℚ)) ∨
      (∃ z, v = .negInt z ∧ -(2 ^ 63) ≤ z ∧ z < 0 ∧ repBits 24 ((z : ℤ) : ℚ)) ∨
      (∃ q, v = .float q ∧ repBits 24 q)
  | .F64, v => (∃ n, v = .posInt n ∧ n < 2 ^ 64 ∧ repBits 53 ((n : ℕ) : ℚ)) ∨
      (∃ z, v = .negInt z ∧ -(2 ^ 63) ≤ z ∧ z < 0 ∧ repBits 53 ((z : ℤ) : ℚ)) ∨
      (∃ q, v = .float q)

theorem asI64_posInt {n : ℕ} (h : n < 2 ^ 63) :
    asI64 (JsonValue.posInt n) = some ((n : ℕ) : ℤ) := by
  unfold asI64
  exact if_pos h

theorem numVal_signed (z : ℤ) :
    numVal (if 0 ≤ z then JsonValue.posInt z.toNat else JsonValue.negInt z)
      = some ((z : ℚ)) := by
  by_cases h0 : 0 ≤ z
  · rw [if_pos h0]
    simp only [numVal, Option.some.injEq]
    exact_mod_cast congrArg (fun w : ℤ => ((w : ℚ))) (Int.toNat_of_nonneg h0)
  · rw [if_neg h0]
    rfl

/-- C2: for every TypeTag other than void and every input value within
that type's representable range, extraction for that tag followed by the
Invoker's return-side `json!` conversion yields a value numerically
equal to the original input. -/
theorem claim2_roundtrip (t : FFIType) (v : JsonValue) (ht : t ≠ .Void)
    (hv : representableIn t v) :
    ∃ nv, extractArg t v = .ok nv ∧ numVal (jsonOfNative nv) = numVal v := by
  cases t with
  | Void => exact absurd rfl ht
  | U8 =>
    obtain ⟨n, rfl, hn⟩ := hv
    refine ⟨.u8 (n % 2 ^ 8), rfl, ?_⟩
    norm_num at hn
    simp [jsonOfNative, numVal, Nat.mod_eq_of_lt hn]
  | U16 =>
    obtain ⟨n, rfl, hn⟩ := hv
    refine ⟨.u16 (n % 2 ^ 16), rfl, ?_⟩
    norm_num at hn
    simp [jsonOfNative, numVal, Nat.mod_eq_of_lt hn]
  | U32 =>
    obtain ⟨n, rfl, hn⟩ := hv
    refine ⟨.u32 (n % 2 ^ 32), rfl, ?_⟩
    norm_num at hn
    simp [jsonOfNative, numVal, Nat.mod_eq_of_lt hn]
  | U64 =>
    obtain ⟨n, rfl, _⟩ := hv
    exact ⟨.u64 n, rfl, rfl⟩
  | USize =>
    obtain ⟨n, rfl, _⟩ := hv
    exact ⟨.usize n, rfl, rfl⟩
  | I8 =>
    rcases hv with ⟨n, rfl, hn⟩ | ⟨z, rfl, hz1, hz2⟩
    · have hn63 : n < 2 ^ 63 := lt_of_lt_of_le hn (by norm_num)
      have hw : wrap 8 ((n : ℕ) : ℤ) = ((n : ℕ) : ℤ) :=
        wrap_eq_self (by norm_num)
          (le_trans (by norm_num) (Int.natCast_nonneg n)) (by exact_mod_cast hn)
      refine ⟨.i8 (wrap 8 ((n : ℕ) : ℤ)), by simp only [extractArg, asI64_posInt hn63], ?_⟩
      rw [hw]
      have h := numVal_signed ((n : ℕ) : ℤ)
      rw [Int.cast_natCast] at h
      exact h
    · have hw : wrap 8 z = z := wrap_eq_self (by norm_num) hz1 hz2
      refine ⟨.i8 (wrap 8 z), rfl, ?_⟩
      rw [hw]
      exact numVal_signed z
  | I16 =>
    rcases hv with ⟨n, rfl, hn⟩ | ⟨z, rfl, hz1, hz2⟩
    · have hn63 : n < 2 ^ 63 := lt_of_lt_of_le hn (by norm_num)
      have hw : wrap 16 ((n : ℕ) : ℤ) = ((n : ℕ) : ℤ) :=
        wrap_eq_self (by norm_num)
          (le_trans (by norm_num) (Int.natCast_nonneg n)) (by exact_mod_cast hn)
      refine ⟨.i16 (wrap 16 ((n : ℕ) : ℤ)), by simp only [extractArg, asI64_posInt hn63], ?_⟩
      rw [hw]
      have h := numVal_signed ((n : ℕ) : ℤ)
      rw [Int.cast_natCast] at h
      exact h
    · have hw : wrap 16 z = z := wrap_eq_self (by norm_num) hz1 hz2
      refine ⟨.i16 (wrap 16 z), rfl, ?_⟩
      rw [hw]
      exact numVal_signed z
  | I32 =>
    rcases hv with ⟨n, rfl, hn⟩ | ⟨z, rfl, hz1, hz2⟩
    · have hn63 : n < 2 ^ 63 := lt_of_lt_of_le hn (by norm_num)
      have hw : wrap 32 ((n : ℕ) : ℤ) = ((n : ℕ) : ℤ) :=
        wrap_eq_self (by norm_num)
          (le_trans (by norm_num) (Int.natCast_nonneg n)) (by exact_mod_cast hn)
      refine ⟨.i32 (wrap 32 ((n : ℕ) : ℤ)), by simp only [extractArg, asI64_posInt hn63], ?_⟩
      rw [hw]
      have h := numVal_signed ((n : ℕ) : ℤ)
      rw [Int.cast_natCast] at h
      exact h
    · have hw : wrap 32 z = z := wrap_eq_self (by norm_num) hz1 hz2
      refine ⟨.i32 (wrap 32 z), rfl, ?_⟩
      rw [hw]
      exact numVal_signed z
  | I64 =>
    rcases hv with ⟨n, rfl, hn⟩ | ⟨z, rfl, _, _⟩
    · refine ⟨.i64 ((n : ℕ) : ℤ), by simp only [extractArg, asI64_posInt hn], ?_⟩
      have h := numVal_signed ((n : ℕ) : ℤ)
      rw [Int.cast_natCast] at h
      exact h
    · exact ⟨.i64 z, rfl, numVal_signed z⟩
  | ISize =>
    rcases hv with ⟨n, rfl, hn⟩ | ⟨z, rfl, _, _⟩
    · refine ⟨.isize ((n : ℕ) : ℤ), by simp only [extractArg, asI64_posInt hn], ?_⟩
      have h := numVal_signed ((n : ℕ) : ℤ)
      rw [Int.cast_natCast] at h
      exact h
    · exact ⟨.isize z, rfl, numVal_signed z⟩
  | F32 =>
    rcases hv with ⟨n, rfl, _, hrep⟩ | ⟨z, rfl, _, _, hrep⟩ | ⟨q, rfl, hrep⟩
    · refine ⟨.f32 (rnE 24 (rnE 53 ((n : ℕ) : ℚ))), rfl, ?_⟩
      rw [rnE_eq_self (repBits_mono (by norm_num) hrep), rnE_eq_self hrep]
      rfl
    · refine ⟨.f32 (rnE 24 (rnE 53 ((z : ℤ) : ℚ))), rfl, ?_⟩
      rw [rnE_eq_self (repBits_mono (by norm_num) hrep), rnE_eq_self hrep]
      rfl
    · refine ⟨.f32 (rnE 24 q), rfl, ?_⟩
      rw [rnE_eq_self hrep]
      rfl
  | F64 =>
    rcases hv with ⟨n, rfl, _, hrep⟩ | ⟨z, rfl, _, _, hrep⟩ | ⟨q, rfl⟩
    · refine ⟨.f64 (rnE 53 ((n : ℕ) : ℚ)), rfl, ?_⟩
      rw [rnE_eq_self hrep]
      rfl
    · refine ⟨.f64 (rnE 53 ((z : ℤ) : ℚ)), rfl, ?_⟩
      rw [rnE_eq_self hrep]
      rfl
    · exact ⟨.f64 q, rfl, rfl⟩

/-- C2 witness: the tag `u8` with input `255` round-trips to `255`. -/
theorem claim2_roundtrip_w :
    (FFIType.U8 ≠ .Void) ∧ representableIn .U8 (.posInt 255) ∧
    ∃ nv, extractArg .U8 (.posInt 255) = .ok nv ∧
      numVal (jsonOfNative nv) = numVal (.posInt 255) :=
  ⟨by decide, ⟨255, rfl, by norm_num⟩,
    claim2_roundtrip .U8 (.posInt 255) (by decide) ⟨255, rfl, by norm_num⟩⟩

/-- C1: the marshaller produces exactly one native argument cell per
spec and builds the call-interface descriptor type list in the same
length and order; the i-th native type and the i-th cell both come from
the i-th input ArgumentSpec. -/
theorem claim1_marshal_order (specs : List FFIArg) (ts : List NativeType)
    (cells : List NativeValue)
    (ht : (resolveTypes specs).fst = .ok ts)
    (hc : (marshalArgs specs).fst = .ok cells) :
    ts.length = specs.length ∧ cells.length = specs.length ∧
    ∀ i, i < specs.length → ∃ a t cell,
      specs[i]? = some a ∧
      FFIType.fromString a.argType = .ok t ∧
      ts[i]? = some t.toNativeType ∧
      extractArg t a.value = .ok cell ∧
      cells[i]? = some cell := by
  obtain ⟨hl1, hi1⟩ := resolveTypes_ok ht
  obtain ⟨hl2, hi2⟩ := marshalArgs_ok hc
  refine ⟨hl1, hl2, ?_⟩
  intro i hi
  obtain ⟨a, t, ha, hft, hts⟩ := hi1 i hi
  obtain ⟨a2, t2, cell, ha2, hft2, he2, hc2⟩ := hi2 i hi
  rw [ha] at ha2
  injection ha2 with ha2
  subst ha2
  rw [hft] at hft2
  injection hft2 with hft2
  subst hft2
  exact ⟨a, t, cell, ha, hft, hts, he2, hc2⟩

/-- C1 witness: the three-argument i32 call of the spec example. -/
theorem claim1_marshal_order_w :
    ((resolveTypes [⟨"i32", JsonValue.posInt 1⟩, ⟨"i32", JsonValue.posInt 2⟩,
        ⟨"i32", JsonValue.posInt 3⟩]).fst = .ok [.i32, .i32, .i32] ∧
     (marshalArgs [⟨"i32", JsonValue.posInt 1⟩, ⟨"i32", JsonValue.posInt 2⟩,
        ⟨"i32", JsonValue.posInt 3⟩]).fst = .ok [.i32 1, .i32 2, .i32 3]) ∧
    ([NativeType.i32, NativeType.i32, NativeType.i32].length = 3 ∧
     [NativeValue.i32 1, NativeValue.i32 2, NativeValue.i32 3].length = 3) := by
  refine ⟨⟨rfl, rfl⟩, ?_⟩
  have h := claim1_marshal_order
    [⟨"i32", JsonValue.posInt 1⟩, ⟨"i32", JsonValue.posInt 2⟩,
     ⟨"i32", JsonValue.posInt 3⟩]
    [.i32, .i32, .i32] [.i32 1, .i32 2, .i32 3] rfl rfl
  exact ⟨h.1, h.2.1⟩

/-- C3: numeric narrowing truncates via the Rust cast and never fails
for any value representable in the extraction class: `u8` with 300
yields 44 = 300 mod 256, every unsigned width takes the value mod
2 ^ width, and every signed width takes the two's-complement wrap. -/
theorem claim3_truncation :
    extractArg .U8 (.posInt 300) = .ok (.u8 44) ∧
    (∀ v n, asU64 v = some n →
      extractArg .U8 v = .ok (.u8 (n % 2 ^ 8)) ∧
      extractArg .U16 v = .ok (.u16 (n % 2 ^ 16)) ∧
      extractArg .U32 v = .ok (.u32 (n % 2 ^ 32)) ∧
      extractArg .U64 v = .ok (.u64 n) ∧
      extractArg .USize v = .ok (.usize n)) ∧
    (∀ v z, asI64 v = some z →
      extractArg .I8 v = .ok (.i8 (wrap 8 z)) ∧
      extractArg .I16 v = .ok (.i16 (wrap 16 z)) ∧
      extractArg .I32 v = .ok (.i32 (wrap 32 z)) ∧
      extractArg .I64 v = .ok (.i64 z) ∧
      extractArg .ISize v = .ok (.isize z)) := by
  refine ⟨rfl, ?_, ?_⟩
  · intro v n h
    refine ⟨?_, ?_, ?_, ?_, ?_⟩ <;> simp only [extractArg, h]
  · intro v z h
    refine ⟨?_, ?_, ?_, ?_, ?_⟩ <;> simp only [extractArg, h]

/-- C3 witness: evaluation at the pinned input 300. -/
theorem claim3_truncation_w :
    asU64 (.posInt 300) = some 300 ∧
    extractArg .U8 (.posInt 300) = .ok (.u8 44) ∧
    extractArg .U16 (.posInt 300) = .ok (.u16 300) := by
  refine ⟨rfl, claim3_truncation.1, ?_⟩
  have h := (claim3_truncation.2.1 (.posInt 300) 300 rfl).2.1
  simpa using h

/-- C6: a call with a handle id absent from the resource table fails
with the bad-resource-id error; the trace shows no symbol lookup, no
type resolution, no value extraction and no foreign call. -/
theorem claim6_invalid_handle (perms : FfiPermissions) (table : ResourceTable)
    (rid : Nat) (a : DlcallArgs)
    (hp : perms.check = true) (h : table.get rid = none) :
    op_dlcall true perms table rid a = (.err .badResourceId, [.permCheck]) ∧
    (∀ s, Event.symbolLookup s ∉ (op_dlcall true perms table rid a).snd) ∧
    (∀ s, Event.typeResolve s ∉ (op_dlcall true perms table rid a).snd) ∧
    Event.valueExtract ∉ (op_dlcall true perms table rid a).snd ∧
    (∀ s, Event.foreignCall s ∉ (op_dlcall true perms table rid a).snd) := by
  have hmain : op_dlcall true perms table rid a
      = (.err .badResourceId, [.permCheck]) := by
    simp [op_dlcall, hp, h]
  refine ⟨hmain, ?_, ?_, ?_, ?_⟩ <;> simp [hmain]

/-- C6 witness: unknown handle id 0 in an empty table. -/
theorem claim6_invalid_handle_w :
    ((⟨true, fun _ => true⟩ : FfiPermissions).check = true ∧
     (⟨0, []⟩ : ResourceTable).get 0 = none) ∧
    op_dlcall true ⟨true, fun _ => true⟩ ⟨0, []⟩ 0 ⟨"f", [], "void"⟩
      = (.err .badResourceId, [.permCheck]) :=
  ⟨⟨rfl, rfl⟩, (claim6_invalid_handle ⟨true, fun _ => true⟩ ⟨0, []⟩ 0
    ⟨"f", [], "void"⟩ rfl rfl).1⟩

/-- C7: a call naming a symbol absent from the library's export table
fails with the symbol-not-found error (a structured recoverable error)
and performs no foreign call. -/
theorem claim7_symbol_not_found (perms : FfiPermissions)
    (table : ResourceTable) (rid : Nat) (lib : Library) (a : DlcallArgs)
    (hp : perms.check = true) (h : table.get rid = some lib)
    (hs : lib.symbol a.sym = none) :
    op_dlcall true perms table rid a
      = (.err (.symbolNotFound a.sym), [.permCheck, .symbolLookup a.sym]) ∧
    (op_dlcall true perms table rid a).fst.returnedErr = true ∧
    (∀ s, Event.foreignCall s ∉ (op_dlcall true perms table rid a).snd) := by
  have hmain : op_dlcall true perms table rid a
      = (.err (.symbolNotFound a.sym), [.permCheck, .symbolLookup a.sym]) := by
    simp [op_dlcall, hp, h, hs]
  exact ⟨hmain, by simp [hmain, FfiOutcome.returnedErr], by simp [hmain]⟩

/-- C7 witness: a library with an empty export table. -/
theorem claim7_symbol_not_found_w :
    ((⟨1, [(0, ⟨[]⟩)]⟩ : ResourceTable).get 0 = some ⟨[]⟩ ∧
     (⟨[]⟩ : Library).symbol "missing" = none) ∧
    op_dlcall true ⟨true, fun _ => true⟩ ⟨1, [(0, ⟨[]⟩)]⟩ 0 ⟨"missing", [], "void"⟩
      = (.err (.symbolNotFound "missing"), [.permCheck, .symbolLookup "missing"]) :=
  ⟨⟨rfl, rfl⟩, (claim7_symbol_not_found ⟨true, fun _ => true⟩ ⟨1, [(0, ⟨[]⟩)]⟩ 0
    ⟨[]⟩ ⟨"missing", [], "void"⟩ rfl rfl rfl).1⟩

/-- C8: when the platform loader fails for a path, open returns the
load error, the resource table is unchanged, and no handle id is
produced. -/
theorem claim8_load_failure (perms : FfiPermissions)
    (loader : String → Except String Library) (table : ResourceTable)
    (path : String) (m : String)
    (h1 : perms.check = true) (h2 : perms.checkRead path = true)
    (h3 : loader path = .error m) :
    op_dlopen true perms loader table path
      = (.err (.libraryLoadError m), table,
         [.permCheck, .permCheckRead path, .libOpen path]) ∧
    (op_dlopen true perms loader table path).snd.fst = table ∧
    (op_dlopen true perms loader table path).fst.returnedErr = true := by
  have hmain : op_dlopen true perms loader table path
      = (.err (.libraryLoadError m), table,
         [.permCheck, .permCheckRead path, .libOpen path]) := by
    simp [op_dlopen, h1, h2, h3]
  exact ⟨hmain, by simp [hmain], by simp [hmain, FfiOutcome.returnedErr]⟩

/-- C8 witness: a loader that fails on every path. -/
theorem claim8_load_failure_w :
    ((⟨true, fun _ => true⟩ : FfiPermissions).check = true ∧
     (⟨true, fun _ => true⟩ : FfiPermissions).checkRead "/nope.so" = true ∧
     (fun _ : String => (.error "no such file" : Except String Library)) "/nope.so"
       = .error "no such file") ∧
    op_dlopen true ⟨true, fun _ => true⟩
        (fun _ => .error "no such file") ⟨0, []⟩ "/nope.so"
      = (.err (.libraryLoadError "no such file"), ⟨0, []⟩,
         [.permCheck, .permCheckRead "/nope.so", .libOpen "/nope.so"]) :=
  ⟨⟨rfl, rfl, rfl⟩, (claim8_load_failure ⟨true, fun _ => true⟩
    (fun _ => .error "no such file") ⟨0, []⟩ "/nope.so" "no such file"
    rfl rfl rfl).1⟩

/-- C9: with the unstable flag off, both entry points abort the whole
process with the fixed non-zero exit status 70 and a diagnostic message
as the first step: the empty trace shows the permission check and all
library and marshalling code are never reached. -/
theorem claim9_feature_gate (perms : FfiPermissions)
    (loader : String → Except String Library) (table : ResourceTable)
    (path : String) (rid : Nat) (a : DlcallArgs) :
    op_dlopen false perms loader table path
      = (.processExit 70 (unstableMsg "Deno.dlopen"), table, []) ∧
    op_dlcall false perms table rid a
      = (.processExit 70 (unstableMsg "Deno.dlcall"), []) ∧
    (70 : Nat) ≠ 0 :=
  ⟨by simp [op_dlopen], by simp [op_dlcall], by norm_num⟩

/-- C10: handle lookup and symbol resolution happen before any
type-name resolution or value extraction: a call whose symbol is absent
yields the symbol-lookup error no matter what the declared type strings
are, and its trace contains no type-resolution or extraction events. -/
theorem claim10_lookup_before_types (perms : FfiPermissions)
    (table : ResourceTable) (rid : Nat) (lib : Library) (a : DlcallArgs)
    (hp : perms.check = true) (h : table.get rid = some lib)
    (hs : lib.symbol a.sym = none) :
    (op_dlcall true perms table rid a).fst = .err (.symbolNotFound a.sym) ∧
    (∀ s, Event.typeResolve s ∉ (op_dlcall true perms table rid a).snd) ∧
    Event.valueExtract ∉ (op_dlcall true perms table rid a).snd := by
  have hmain : op_dlcall true perms table rid a
      = (.err (.symbolNotFound a.sym), [.permCheck, .symbolLookup a.sym]) := by
    simp [op_dlcall, hp, h, hs]
  exact ⟨by simp [hmain], by simp [hmain], by simp [hmain]⟩

/-- C10 witness: the symbol error wins even with invalid type names. -/
theorem claim10_lookup_before_types_w :
    ((⟨1, [(0, ⟨[]⟩)]⟩ : ResourceTable).get 0 = some ⟨[]⟩ ∧
     (⟨[]⟩ : Library).symbol "g" = none) ∧
    (op_dlcall true ⟨true, fun _ => true⟩ ⟨1, [(0, ⟨[]⟩)]⟩ 0
        ⟨"g", [⟨"u9", JsonValue.posInt 1⟩], "bogus"⟩).fst
      = .err (.symbolNotFound "g") :=
  ⟨⟨rfl, rfl⟩, (claim10_lookup_before_types ⟨true, fun _ => true⟩
    ⟨1, [(0, ⟨[]⟩)]⟩ 0 ⟨[]⟩ ⟨"g", [⟨"u9", JsonValue.posInt 1⟩], "bogus"⟩
    rfl rfl rfl).1⟩

/-- C4 counterexample: resolving the unknown type name "u9" does not
produce a structured recoverable error: the `unimplemented!` path
panics, and the call outcome is a panic, not a returned error. -/
theorem claim4_cex :
    FFIType.fromString "u9" = .error "not implemented" ∧
    (op_dlcall true ⟨true, fun _ => true⟩
        ⟨1, [(0, ⟨[("f", fun _ => NativeValue.unit)]⟩)]⟩ 0
        ⟨"f", [⟨"u9", JsonValue.posInt 1⟩], "void"⟩).fst
      = .panicked "not implemented" ∧
    (op_dlcall true ⟨true, fun _ => true⟩
        ⟨1, [(0, ⟨[("f", fun _ => NativeValue.unit)]⟩)]⟩ 0
        ⟨"f", [⟨"u9", JsonValue.posInt 1⟩], "void"⟩).fst.returnedErr = false :=
  ⟨rfl, rfl, rfl⟩

/-- C4 amended: for every type-name string outside the closed
vocabulary, resolution fails with the `unimplemented!` panic (message
"not implemented") rather than a structured recoverable error; in a
call, an unknown name among the argument or return types makes the
whole operation panic before any value extraction and before the
foreign call. -/
theorem claim4_amended :
    (∀ s, s ∉ vocab → FFIType.fromString s = .error "not implemented") ∧
    (∀ (args : List FFIArg) (i : ℕ) (sp : FFIArg), args[i]? = some sp →
      sp.argType ∉ vocab → ∃ m, (resolveTypes args).fst = .error m) ∧
    (∀ (perms : FfiPermissions) (table : ResourceTable) (rid : Nat)
        (lib : Library) (f : NativeFun) (a : DlcallArgs) (m : String),
      perms.check = true → table.get rid = some lib →
      lib.symbol a.sym = some f →
      (FFIType.fromString a.returnType = .error m ∨
        ((∃ rt, FFIType.fromString a.returnType = .ok rt) ∧
          (resolveTypes a.args).fst = .error m)) →
      (op_dlcall true perms table rid a).fst = .panicked m ∧
      (op_dlcall true perms table rid a).fst.returnedErr = false ∧
      Event.valueExtract ∉ (op_dlcall true perms table rid a).snd ∧
      (∀ s, Event.foreignCall s ∉ (op_dlcall true perms table rid a).snd)) := by
  refine ⟨fun s hs => fromString_of_not_mem hs, ?_, ?_⟩
  · intro args i sp ha hbad
    exact resolveTypes_error_of_bad ha (fromString_of_not_mem hbad)
  · intro perms table rid lib f a m hp h hsym hdisj
    rcases hdisj with hret | ⟨⟨rt, hrt⟩, hres⟩
    · have hmain : op_dlcall true perms table rid a
          = (.panicked m,
             [.permCheck, .symbolLookup a.sym, .typeResolve a.returnType]) := by
        simp [op_dlcall, hp, h, hsym, hret]
      refine ⟨by simp [hmain], by simp [hmain, FfiOutcome.returnedErr],
        by simp [hmain], by simp [hmain]⟩
    · rcases hres2 : resolveTypes a.args with ⟨res, ev⟩
      rw [hres2] at hres
      simp only at hres
      subst hres
      have hmain : op_dlcall true perms table rid a
          = (.panicked m,
             [.permCheck, .symbolLookup a.sym, .typeResolve a.returnType]
               ++ ev) := by
        simp [op_dlcall, hp, h, hsym, hrt, hres2]
      refine ⟨by simp [hmain], by simp [hmain, FfiOutcome.returnedErr], ?_, ?_⟩
      · intro hmem
        rw [hmain] at hmem
        simp at hmem
        obtain ⟨s, hs⟩ := resolveTypes_events (by rw [hres2]; exact hmem)
        cases hs
      · intro s hmem
        rw [hmain] at hmem
        simp at hmem
        obtain ⟨s2, hs⟩ := resolveTypes_events (by rw [hres2]; exact hmem)
        cases hs

/-- C4 amended witness: the bad name "u9" at concrete inputs. -/
theorem claim4_amended_w :
    FFIType.fromString "u9" = .error "not implemented" ∧
    (∃ m, (resolveTypes [⟨"u9", JsonValue.posInt 2⟩]).fst = .error m) ∧
    (op_dlcall true ⟨true, fun _ => true⟩
        ⟨1, [(0, ⟨[("h", fun _ => NativeValue.unit)]⟩)]⟩ 0
        ⟨"h", [⟨"u9", JsonValue.posInt 2⟩], "void"⟩).fst
      = .panicked "not implemented" := by
  refine ⟨claim4_amended.1 "u9" (by decide),
    claim4_amended.2.1 [⟨"u9", JsonValue.posInt 2⟩] 0 ⟨"u9", JsonValue.posInt 2⟩
      rfl (by decide), ?_⟩
  exact (claim4_amended.2.2 ⟨true, fun _ => true⟩
    ⟨1, [(0, ⟨[("h", fun _ => NativeValue.unit)]⟩)]⟩ 0
    ⟨[("h", fun _ => NativeValue.unit)]⟩ (fun _ => NativeValue.unit)
    ⟨"h", [⟨"u9", JsonValue.posInt 2⟩], "void"⟩ "not implemented"
    rfl rfl rfl (.inr ⟨⟨.Void, rfl⟩, rfl⟩)).1

/-- C5 counterexample: extracting a declared `u8` from a float value
does not return a structured recoverable TypeMismatch error: the
`expect` inside `as_u64` panics, and the call outcome is a panic, not a
returned error. -/
theorem claim5_cex :
    extractArg .U8 (.float (1 / 2)) = .error msgUnsigned ∧
    (op_dlcall true ⟨true, fun _ => true⟩
        ⟨1, [(0, ⟨[("f2", fun _ => NativeValue.unit)]⟩)]⟩ 0
        ⟨"f2", [⟨"u8", JsonValue.float (1 / 2)⟩], "void"⟩).fst
      = .panicked msgUnsigned ∧
    (op_dlcall true ⟨true, fun _ => true⟩
        ⟨1, [(0, ⟨[("f2", fun _ => NativeValue.unit)]⟩)]⟩ 0
        ⟨"f2", [⟨"u8", JsonValue.float (1 / 2)⟩], "void"⟩).fst.returnedErr
      = false :=
  ⟨rfl, rfl, rfl⟩

/-- C5 amended: when a value's storage class is incompatible with the
declared tag's accessor, extraction fails with the `expect` panic whose
message names the expected class; the panic propagates out of the call
operation instead of a structured recoverable error being returned, and
no foreign call occurs. -/
theorem claim5_amended :
    (∀ t, t ∈ ([.U8, .U16, .U32, .U64, .USize] : List FFIType) →
      ∀ v, asU64 v = none → extractArg t v = .error msgUnsigned) ∧
    (∀ t, t ∈ ([.I8, .I16, .I32, .I64, .ISize] : List FFIType) →
      ∀ v, asI64 v = none → extractArg t v = .error msgSigned) ∧
    (∀ t, t ∈ ([.F32, .F64] : List FFIType) →
      ∀ v, asF64 v = none → extractArg t v = .error msgFloat) ∧
    (∀ (perms : FfiPermissions) (table : ResourceTable) (rid : Nat)
        (lib : Library) (f : NativeFun) (a : DlcallArgs) (rt : FFIType)
        (ts : List NativeType) (m : String),
      perms.check = true → table.get rid = some lib →
      lib.symbol a.sym = some f →
      FFIType.fromString a.returnType = .ok rt →
      (resolveTypes a.args).fst = .ok ts →
      (marshalArgs a.args).fst = .error m →
      (op_dlcall true perms table rid a).fst = .panicked m ∧
      (op_dlcall true perms table rid a).fst.returnedErr = false ∧
      (∀ s, Event.foreignCall s ∉ (op_dlcall true perms table rid a).snd)) := by
  refine ⟨?_, ?_, ?_, ?_⟩
  · intro t ht v hv
    fin_cases ht <;> simp [extractArg, hv]
  · intro t ht v hv
    fin_cases ht <;> simp [extractArg, hv]
  · intro t ht v hv
    fin_cases ht <;> simp [extractArg, hv]
  · intro perms table rid lib f a rt ts m hp h hsym hrt hres hmar
    rcases hres2 : resolveTypes a.args with ⟨res, ev⟩
    rw [hres2] at hres
    simp only at hres
    subst hres
    rcases hmar2 : marshalArgs a.args with ⟨res2, ev2⟩
    rw [hmar2] at hmar
    simp only at hmar
    subst hmar
    have hmain : op_dlcall true perms table rid a
        = (.panicked m,
           [.permCheck, .symbolLookup a.sym, .typeResolve a.returnType]
             ++ ev ++ ev2) := by
      simp [op_dlcall, hp, h, hsym, hrt, hres2, hmar2]
    refine ⟨by simp [hmain], by simp [hmain, FfiOutcome.returnedErr], ?_⟩
    intro s hmem
    rw [hmain] at hmem
    simp at hmem
    rcases hmem with hmem | hmem
    · obtain ⟨s2, hs⟩ := resolveTypes_events (by rw [hres2]; exact hmem)
      cases hs
    · rcases marshalArgs_events (by rw [hmar2]; exact hmem) with ⟨s2, hs⟩ | hs
      · cases hs
      · cases hs

/-- C5 amended witness: a `u8` argument given a float value at concrete
inputs. -/
theorem claim5_amended_w :
    asU64 (.float (3 / 2)) = none ∧
    extractArg .U8 (.float (3 / 2)) = .error msgUnsigned ∧
    (op_dlcall true ⟨true, fun _ => true⟩
        ⟨1, [(0, ⟨[("g2", fun _ => NativeValue.unit)]⟩)]⟩ 0
        ⟨"g2", [⟨"u8", JsonValue.float (3 / 2)⟩], "void"⟩).fst
      = .panicked msgUnsigned := by
  refine ⟨rfl, claim5_amended.1 .U8 (by decide) (.float (3 / 2)) rfl, ?_⟩
  exact (claim5_amended.2.2.2 ⟨true, fun _ => true⟩
    ⟨1, [(0, ⟨[("g2", fun _ => NativeValue.unit)]⟩)]⟩ 0
    ⟨[("g2", fun _ => NativeValue.unit)]⟩ (fun _ => NativeValue.unit)
    ⟨"g2", [⟨"u8", JsonValue.float (3 / 2)⟩], "void"⟩ .Void [NativeType.u8]
    msgUnsigned rfl rfl rfl rfl rfl rfl).1

end DenoFfi
